import Mathlib

/-!
Verification of the streaming tool-call reassembly layer of go-anyllm.

The definitions below are shallow embeddings of the Go source code:

* `IsValidJSON` models `tools.IsValidJSON`: a guard for the empty string plus
  `encoding/json.Unmarshal` into `interface\x7b\x7d` used as a structural JSON
  syntax check.  The validator below follows the JSON grammar enforced by the
  Go scanner (RFC 8259, whitespace = space/tab/newline/carriage-return, strict
  number grammar, strict escape sequences, no trailing data).  The Go decoder's
  float64 range limit on extreme numeric literals and its nesting-depth limit
  are not modelled; they play no role in the properties proved here.
* `StreamingToolCallAccumulator` and its operations model the accumulator of
  the `tools` package.  The `LastUpdateTime` field (a wall-clock timestamp used
  only for diagnostics) is omitted, and the Go hash map `toolCalls` is modelled
  as an association list with unique keys; `lookupKey` models map indexing.
* `FunctionRegistry.Handle` models the dispatch registry; a Go
  `ToolCallHandler` is a function returning content and an optional error
  message (`err.Error()`).
* `ParseToolCallArgumentsSafe` models the safe argument parser.  The dynamic
  `Parameters interface\x7b\x7d` field is modelled by `ParametersValue`: a
  string, a byte slice (content as a string), or any other Go value represented
  by the outcome of `json.Marshal` on it.  Typed deserialization
  (`json.Unmarshal` into `T`) is a parameter `unmarshalT` returning the
  written value and an optional error message.
* `streamReader.Next` models the pull cursor of `response/stream_reader.go`;
  the producer channel is modelled as the list of items the producer will
  still deliver, after which the channel is closed.  The payload type is a
  type parameter because `Next` never inspects the decoded payload.
* ` trimDataPrefix` models the SSE `"data: "` prefix trimmer of
  `response/stream_reader.go`, byte-for-byte (bytes as characters).
-/

/-! ## JSON structural validity (models `encoding/json.Unmarshal` syntax) -/

def isJSONSpace (c : Char) : Bool :=
  c = ' ' || c = '\t' || c = '\n' || c = '\r'

def skipWS : List Char → List Char
  | [] => []
  | c :: cs => if isJSONSpace c then skipWS cs else c :: cs

def isHexChar (c : Char) : Bool :=
  c.isDigit || ('a' ≤ c && c ≤ 'f') || ('A' ≤ c && c ≤ 'F')

/-- Consume the rest of a JSON string literal, the opening quote already
consumed.  Mirrors the Go scanner: plain characters must be `≥ 0x20`, escapes
are the eight single-character escapes and `\uXXXX`. -/
def parseStringRest : List Char → Option (List Char)
  | [] => none
  | c :: cs =>
    if c = '"' then some cs
    else if c = '\\' then
      match cs with
      | [] => none
      | e :: cs' =>
        if e = '"' || e = '\\' || e = '/' || e = 'b' || e = 'f'
            || e = 'n' || e = 'r' || e = 't' then
          parseStringRest cs'
        else if e = 'u' then
          match cs' with
          | h1 :: h2 :: h3 :: h4 :: cs'' =>
            if isHexChar h1 && isHexChar h2 && isHexChar h3 && isHexChar h4 then
              parseStringRest cs''
            else none
          | _ => none
        else none
    else if 0x20 ≤ c.toNat then parseStringRest cs
    else none

/-- Exponent digits after `e`/`E` (optional sign, then at least one digit). -/
def parseExpDigits (r : List Char) : Option (List Char) :=
  let r1 := match r with
    | '+' :: r' => r'
    | '-' :: r' => r'
    | _ => r
  match r1 with
  | c :: r' => if c.isDigit then some (r'.dropWhile Char.isDigit) else none
  | [] => none

/-- Optional exponent part of a JSON number. -/
def parseExpPart (cs : List Char) : Option (List Char) :=
  match cs with
  | 'e' :: r => parseExpDigits r
  | 'E' :: r => parseExpDigits r
  | _ => some cs

/-- Optional fraction part of a JSON number, then the optional exponent. -/
def parseFracPart (cs : List Char) : Option (List Char) :=
  match cs with
  | '.' :: r =>
    match r with
    | c :: r' => if c.isDigit then parseExpPart (r'.dropWhile Char.isDigit) else none
    | [] => none
  | _ => parseExpPart cs

/-- A JSON number starting at `cs` (first character is `-` or a digit):
`-? (0 | [1-9][0-9]*) frac? exp?`. -/
def parseNumber (cs : List Char) : Option (List Char) :=
  let cs1 := match cs with
    | '-' :: r => r
    | _ => cs
  match cs1 with
  | '0' :: r => parseFracPart r
  | c :: r => if c.isDigit then parseFracPart (r.dropWhile Char.isDigit) else none
  | [] => none

mutual

/-- One JSON value (fuel-indexed recursion; the fuel only bounds the nesting
of the grammar, every recursive call strictly decreases it). -/
def parseValue : Nat → List Char → Option (List Char)
  | 0, _ => none
  | Nat.succ fuel, cs =>
    match skipWS cs with
    | [] => none
    | c :: rest =>
      if c = 'n' then
        match rest with
        | 'u' :: 'l' :: 'l' :: r => some r
        | _ => none
      else if c = 't' then
        match rest with
        | 'r' :: 'u' :: 'e' :: r => some r
        | _ => none
      else if c = 'f' then
        match rest with
        | 'a' :: 'l' :: 's' :: 'e' :: r => some r
        | _ => none
      else if c = '"' then parseStringRest rest
      else if c = '\x7b' then
        match skipWS rest with
        | '\x7d' :: r => some r
        | cs' => parseMembers fuel cs'
      else if c = '[' then
        match skipWS rest with
        | ']' :: r => some r
        | cs' => parseElements fuel cs'
      else if c = '-' || c.isDigit then parseNumber (c :: rest)
      else none

/-- Members of a non-empty JSON object, the opening brace already consumed. -/
def parseMembers : Nat → List Char → Option (List Char)
  | 0, _ => none
  | Nat.succ fuel, cs =>
    match skipWS cs with
    | '"' :: r =>
      match parseStringRest r with
      | none => none
      | some r1 =>
        match skipWS r1 with
        | ':' :: r2 =>
          match parseValue fuel r2 with
          | none => none
          | some r3 =>
            match skipWS r3 with
            | ',' :: r4 => parseMembers fuel r4
            | '\x7d' :: r4 => some r4
            | _ => none
        | _ => none
    | _ => none

/-- Elements of a non-empty JSON array, the opening bracket already consumed. -/
def parseElements : Nat → List Char → Option (List Char)
  | 0, _ => none
  | Nat.succ fuel, cs =>
    match parseValue fuel cs with
    | none => none
    | some r =>
      match skipWS r with
      | ',' :: r2 => parseElements fuel r2
      | ']' :: r2 => some r2
      | _ => none

end

/-- Models `tools.IsValidJSON`: the empty string is rejected outright, any
other string is valid iff `json.Unmarshal` accepts it — one JSON value,
possibly surrounded by whitespace, with no trailing data. -/
def IsValidJSON (s : String) : Bool :=
  if s = "" then false
  else
    match parseValue (2 * s.length + 4) s.toList with
    | some rest => (skipWS rest).isEmpty
    | none => false

/-! ## Response and request shapes -/

/-- Models `response.ToolFunction` (name and the arguments fragment). -/
structure Response.ToolFunction where
  name : String
  arguments : String
  deriving DecidableEq, Repr

/-- Models `response.ToolCall`, the delta fragment shape consumed by the
accumulator. -/
structure Response.ToolCall where
  id : String
  type : String
  function : Response.ToolFunction
  deriving DecidableEq, Repr

/-- The outcome of `encoding/json.Marshal` on a Go value: the serialized text
or an error message. -/
inductive MarshalResult where
  | ok (data : String)
  | error (msg : String)
  deriving DecidableEq, Repr

/-- Models the dynamically typed Go field `Parameters interface\x7b\x7d` of
`types.ToolFunction`: a string, a byte slice (its content as a string), or any
other Go value, represented by the outcome of `json.Marshal` on it. -/
inductive ParametersValue where
  | str (s : String)
  | bytes (b : String)
  | other (marshalled : MarshalResult)
  deriving DecidableEq, Repr

/-- Models `types.ToolFunction`. -/
structure Types.ToolFunction where
  name : String
  description : String
  parameters : ParametersValue
  deriving DecidableEq, Repr

/-- Models `types.ToolCall`. -/
structure Types.ToolCall where
  id : String
  type : String
  function : Types.ToolFunction
  deriving DecidableEq, Repr

/-! ## The streaming tool-call accumulator -/

/-- Models `tools.StreamingToolCall`; the diagnostic `LastUpdateTime`
timestamp is omitted. -/
structure StreamingToolCall where
  id : String
  type : String
  functionName : String
  argumentsBuffer : String
  isComplete : Bool
  deriving DecidableEq, Repr

/-- Models `tools.StreamingToolCallAccumulator`; the Go hash map is an
association list with unique keys, the mutex is not part of the data. -/
structure StreamingToolCallAccumulator where
  toolCalls : List (String × StreamingToolCall)
  lastToolCallID : String
  deriving DecidableEq, Repr

/-- Models map indexing `m[k]` (`nil` when absent). -/
def lookupKey {β : Type} (k : String) : List (String × β) → Option β
  | [] => none
  | e :: rest => if e.1 = k then some e.2 else lookupKey k rest

/-- Models in-place mutation of the entry under key `k`. -/
def updateAssoc {β : Type} (k : String) (f : β → β) : List (String × β) → List (String × β)
  | [] => []
  | e :: rest => if e.1 = k then (e.1, f e.2) :: rest else e :: updateAssoc k f rest

/-- Models `tools.NewStreamingToolCallAccumulator`. -/
def NewStreamingToolCallAccumulator : StreamingToolCallAccumulator :=
  { toolCalls := [], lastToolCallID := "" }

/-- The record created by `ProcessDelta` when `targetID` is not yet in the
map: id, type and function name from the delta, empty buffer, not complete. -/
def freshCall (targetID : String) (delta : Response.ToolCall) : StreamingToolCall :=
  { id := targetID, type := delta.type, functionName := delta.function.name,
    argumentsBuffer := "", isComplete := false }

/-- The net per-field effect of the `ProcessDelta` loop body on the target
record: type and function name are updated if the delta carries non-empty
values, a non-empty arguments fragment is appended to the buffer, and the
completion flag is set when the new buffer is valid JSON (and is never
cleared). -/
def updateWithDelta (delta : Response.ToolCall) (c : StreamingToolCall) : StreamingToolCall :=
  let newBuffer := if delta.function.arguments ≠ "" then
      c.argumentsBuffer ++ delta.function.arguments
    else c.argumentsBuffer
  { id := c.id,
    type := if delta.type ≠ "" then delta.type else c.type,
    functionName := if delta.function.name ≠ "" then delta.function.name else c.functionName,
    argumentsBuffer := newBuffer,
    isComplete := if IsValidJSON newBuffer then true else c.isComplete }

/-- Get-or-create the record under `targetID` and apply the loop body to it. -/
def StreamingToolCallAccumulator.applyToTarget (acc : StreamingToolCallAccumulator)
    (targetID : String) (delta : Response.ToolCall) : StreamingToolCallAccumulator :=
  let calls0 := match lookupKey targetID acc.toolCalls with
    | none => acc.toolCalls ++ [(targetID, freshCall targetID delta)]
    | some _ => acc.toolCalls
  { acc with toolCalls := updateAssoc targetID (updateWithDelta delta) calls0 }

/-- One iteration of the `ProcessDelta` loop: resolve the target id (a delta
with an empty id goes to the most recently seen non-empty id, and is skipped
when there is none), remember a non-empty id in `lastToolCallID`, then apply
the loop body to the target record. -/
def StreamingToolCallAccumulator.processDeltaStep (acc : StreamingToolCallAccumulator)
    (delta : Response.ToolCall) : StreamingToolCallAccumulator :=
  if delta.id = "" then
    if acc.lastToolCallID = "" then acc
    else acc.applyToTarget acc.lastToolCallID delta
  else
    ({ acc with lastToolCallID := delta.id }).applyToTarget delta.id delta

/-- Models `StreamingToolCallAccumulator.ProcessDelta`. -/
def StreamingToolCallAccumulator.ProcessDelta (acc : StreamingToolCallAccumulator)
    (deltaToolCalls : List Response.ToolCall) : StreamingToolCallAccumulator :=
  deltaToolCalls.foldl StreamingToolCallAccumulator.processDeltaStep acc

/-- The externally visible call shape built by `GetCompletedToolCalls`,
`FinalizeStream` and `ForceCompleteToolCall`: the raw buffer text becomes the
`Parameters` payload. -/
def toTypesToolCall (c : StreamingToolCall) : Types.ToolCall :=
  { id := c.id, type := c.type,
    function := { name := c.functionName, description := "",
                  parameters := ParametersValue.str c.argumentsBuffer } }

/-- Models `StreamingToolCallAccumulator.GetCompletedToolCalls`. -/
def StreamingToolCallAccumulator.GetCompletedToolCalls
    (acc : StreamingToolCallAccumulator) : List Types.ToolCall :=
  acc.toolCalls.filterMap (fun e =>
    if e.2.isComplete then some (toTypesToolCall e.2) else none)

/-- The per-record re-validation `FinalizeStream` applies: a record that is
not complete is promoted when its buffer is valid JSON, every other record is
left unchanged. -/
def finalizePromote (c : StreamingToolCall) : StreamingToolCall :=
  if !c.isComplete && IsValidJSON c.argumentsBuffer then { c with isComplete := true } else c

/-- Models `StreamingToolCallAccumulator.FinalizeStream`: re-check every
record that is not complete and promote it when its buffer is valid JSON,
then return all completed calls (paired here with the updated accumulator,
which the Go method mutates in place). -/
def StreamingToolCallAccumulator.FinalizeStream
    (acc : StreamingToolCallAccumulator) : List Types.ToolCall × StreamingToolCallAccumulator :=
  let calls := acc.toolCalls.map (fun e => (e.1, finalizePromote e.2))
  let completed := calls.filterMap (fun e =>
    if e.2.isComplete then some (toTypesToolCall e.2) else none)
  (completed, { acc with toolCalls := calls })

/-! ## Function dispatch registry -/

/-- The result shape produced by `FunctionRegistry.Handle`
(`tools.ToolCallResult`); Go's zero values are empty strings. -/
structure ToolCallResult where
  toolCallID : String
  content : String
  error : String
  deriving DecidableEq, Repr

/-- Models `tools.FunctionRegistry`: a map from function name to handler.  A
Go `ToolCallHandler` is modelled as a function returning the content string
and an optional error message (the text of `err.Error()`). -/
structure FunctionRegistry where
  handlers : List (String × (Types.ToolCall → String × Option String))

/-- Models `tools.NewFunctionRegistry`. -/
def NewFunctionRegistry : FunctionRegistry := { handlers := [] }

/-- Models `FunctionRegistry.Register`: map assignment (a later registration
under the same name shadows the earlier one). -/
def FunctionRegistry.Register (fr : FunctionRegistry) (functionName : String)
    (handler : Types.ToolCall → String × Option String) : FunctionRegistry :=
  { handlers := (functionName, handler) :: fr.handlers }

/-- Models `FunctionRegistry.Handle`: on a lookup miss return an
error-carrying result naming the unknown function; on a hit run the handler
and copy its error (if any) into the result's error field. -/
def FunctionRegistry.Handle (fr : FunctionRegistry) (toolCall : Types.ToolCall) : ToolCallResult :=
  match lookupKey toolCall.function.name fr.handlers with
  | none =>
    { toolCallID := toolCall.id, content := "",
      error := "function " ++ toolCall.function.name ++ " not found" }
  | some handler =>
    let r := handler toolCall
    match r.2 with
    | some e => { toolCallID := toolCall.id, content := r.1, error := e }
    | none => { toolCallID := toolCall.id, content := r.1, error := "" }

/-! ## Safe argument parsing -/

/-- Models `tools.ParseToolCallArgumentsSafe`.  `unmarshalT` stands for
`json.Unmarshal` into the target type `T`: it yields the value written into
the result variable together with an optional error message; `zero` is the
zero value of `T`. -/
def ParseToolCallArgumentsSafe {T : Type} (unmarshalT : String → T × Option String)
    (zero : T) (toolCall : Types.ToolCall) : T × Bool × Option String :=
  match toolCall.function.parameters with
  | ParametersValue.str params =>
    if !IsValidJSON params then (zero, false, none)
    else
      match unmarshalT params with
      | (r, some e) => (r, false, some ("failed to parse tool call arguments from string: " ++ e))
      | (v, none) => (v, true, none)
  | ParametersValue.bytes params =>
    if !IsValidJSON params then (zero, false, none)
    else
      match unmarshalT params with
      | (r, some e) => (r, false, some ("failed to parse tool call arguments from bytes: " ++ e))
      | (v, none) => (v, true, none)
  | ParametersValue.other m =>
    match m with
    | MarshalResult.error e => (zero, false, some ("failed to marshal tool call parameters: " ++ e))
    | MarshalResult.ok data =>
      if !IsValidJSON data then (zero, false, none)
      else
        match unmarshalT data with
        | (r, some e) => (r, false, some ("failed to parse tool call arguments: " ++ e))
        | (v, none) => (v, true, none)

/-! ## Stream reader -/

/-- The iterator's terminal error kind: `io.EOF` or any other read/parse
error (with its message). -/
inductive StreamError where
  | eof
  | other (msg : String)
  deriving DecidableEq, Repr

/-- Models `response.streamResponse`: one item the decode loop sends on the
channel. -/
structure streamResponse (α : Type) where
  chatResp : Option α
  error : Option StreamError
  deriving DecidableEq, Repr

/-- Models the mutable fields of `response.streamReader`. -/
structure streamReader (α : Type) where
  current : Option α
  err : Option StreamError
  hasNext : Bool
  finished : Bool
  deriving DecidableEq, Repr

/-- The reader as built by `response.NewStreamReader`. -/
def streamReader.init {α : Type} : streamReader α :=
  { current := none, err := none, hasNext := false, finished := false }

/-- A reader together with the items its decode loop will still deliver on
the channel; an empty list means the channel is (or is about to be) closed. -/
structure streamConfig (α : Type) where
  reader : streamReader α
  channel : List (streamResponse α)
  deriving DecidableEq, Repr

/-- Models `streamReader.Next`: returns the advance result and the updated
reader/channel.  A receive from a closed channel, an `io.EOF` item and any
other error item all make the iterator terminal (`finished := true`); only
`io.EOF` clears the stored error. -/
def streamReader.Next {α : Type} (cfg : streamConfig α) : Bool × streamConfig α :=
  let m := cfg.reader
  if m.finished then (false, cfg)
  else
    match cfg.channel with
    | [] => (false, { cfg with reader := { m with finished := true, hasNext := false } })
    | resp :: rest =>
      let m1 := { m with current := resp.chatResp, err := resp.error }
      match resp.error with
      | some StreamError.eof =>
        (false, { reader := { m1 with finished := true, hasNext := false, err := none },
                  channel := rest })
      | some _ =>
        (false, { reader := { m1 with finished := true, hasNext := false }, channel := rest })
      | none =>
        (true, { reader := { m1 with hasNext := true }, channel := rest })

/-- The configuration after `n` further calls to `Next` (results discarded). -/
def streamConfig.afterNexts {α : Type} (cfg : streamConfig α) : Nat → streamConfig α
  | 0 => cfg
  | Nat.succ n => ( streamReader.Next (cfg.afterNexts n)).2

/-! ## SSE line prefix trimming -/

/-- Models `response.trimDataPrefix`: drop the first 6 bytes of any line
longer than 6 bytes, otherwise return the line unchanged. -/
def trimDataPrefix (content : List Char) : List Char :=
  if 6 < content.length then content.drop 6 else content

/-! ## Analysis helpers (spec-side views of the accumulator state) -/

/-- The id a delta is routed to by `processDeltaStep`: its own id when
non-empty, otherwise the accumulator's most recently seen non-empty id, and
`none` (the delta is skipped) when neither exists. -/
def resolvedTarget (acc : StreamingToolCallAccumulator) (delta : Response.ToolCall) :
    Option String :=
  if delta.id = "" then
    if acc.lastToolCallID = "" then none else some acc.lastToolCallID
  else some delta.id

/-- The arguments buffer currently recorded under id `x` (empty when there is
no record). -/
def bufOf (acc : StreamingToolCallAccumulator) (x : String) : String :=
  match lookupKey x acc.toolCalls with
  | some c => c.argumentsBuffer
  | none => ""

/-- The completion flag currently recorded under id `x` (`false` when there
is no record). -/
def completeOf (acc : StreamingToolCallAccumulator) (x : String) : Bool :=
  match lookupKey x acc.toolCalls with
  | some c => c.isComplete
  | none => false

/-- The ordered concatenation of the argument texts of a fragment list. -/
def concatArgs : List Response.ToolCall → String
  | [] => ""
  | d :: ds => d.function.arguments ++ concatArgs ds

/-! ## Concrete fixtures used to instantiate the theorems -/

/-- A split of the argument text `\x7b"location":"NYC"\x7d` into three
fragments for call id `call_1`. -/
def dsW : List Response.ToolCall :=
  [ { id := "call_1", type := "function",
      function := { name := "get_weather", arguments := "\x7b\"location\":" } },
    { id := "call_1", type := "",
      function := { name := "", arguments := "\"NYC\"" } },
    { id := "call_1", type := "",
      function := { name := "", arguments := "\x7d" } } ]

/-- A first fragment whose argument text `\x7b"a": 1` is incomplete JSON. -/
def d1W : Response.ToolCall :=
  { id := "call_1", type := "function",
    function := { name := "get_weather", arguments := "\x7b\"a\": 1" } }

/-- A continuation fragment appending the closing brace. -/
def d2W : Response.ToolCall :=
  { id := "call_1", type := "", function := { name := "", arguments := "\x7d" } }

/-- The accumulator after the incomplete first fragment. -/
def acc1W : StreamingToolCallAccumulator :=
  NewStreamingToolCallAccumulator.ProcessDelta [d1W]

/-- An id-less continuation fragment. -/
def dEmptyW : Response.ToolCall :=
  { id := "", type := "", function := { name := "", arguments := ", \"n\": 2" } }

/-- An accumulator holding a pending call `a` whose buffer `1` is valid JSON
and a pending call `b` whose buffer `\x7b` is not. -/
def accFinW : StreamingToolCallAccumulator :=
  { toolCalls :=
      [ ("a", { id := "a", type := "function", functionName := "fa",
                argumentsBuffer := "1", isComplete := false }),
        ("b", { id := "b", type := "function", functionName := "fb",
                argumentsBuffer := "\x7b", isComplete := false }) ],
    lastToolCallID := "b" }

/-- A typed unmarshaller for `Nat` used to instantiate the safe parser: the
payload `1` deserializes to `1`, anything else is a type mismatch. -/
def natUnmarshalW : String → Nat × Option String :=
  fun s => if s = "1" then (1, none) else (0, some "type mismatch")

/-- A tool call whose parameters payload is the given string. -/
def callStrW (s : String) : Types.ToolCall :=
  { id := "c", type := "function",
    function := { name := "f", description := "", parameters := ParametersValue.str s } }

/-- A handler that succeeds with content `sunny`. -/
def okHandlerW : Types.ToolCall → String × Option String := fun _ => ("sunny", none)

/-- A handler that fails with error text `boom`. -/
def failHandlerW : Types.ToolCall → String × Option String := fun _ => ("", some "boom")

/-- A registry with a succeeding handler under `a` and a failing one under
`c`; nothing is registered under `b`. -/
def frW : FunctionRegistry :=
  { handlers := [("a", okHandlerW), ("c", failHandlerW)] }

/-- A tool call invoking the named function. -/
def callNamedW (name : String) : Types.ToolCall :=
  { id := "id_" ++ name, type := "function",
    function := { name := name, description := "",
                  parameters := ParametersValue.str "\x7b\x7d" } }

/-- A fresh stream reader whose decode loop will deliver one read error and
then close the channel. -/
def cfgW : streamConfig Nat :=
  { reader := streamReader.init,
    channel := [{ chatResp := none, error := some (StreamError.other "read failed") }] }

/-! ## Lemmas: association-list map -/

theorem lookupKey_append {β : Type} (k : String) (l1 l2 : List (String × β)) :
    lookupKey k (l1 ++ l2) =
      match lookupKey k l1 with
      | some v => some v
      | none => lookupKey k l2 := by
  induction l1 with
  | nil => simp [lookupKey]
  | cons e rest ih =>
    by_cases h : e.1 = k
    · simp [lookupKey, h]
    · simp [lookupKey, h, ih]

theorem lookupKey_updateAssoc_self {β : Type} (k : String) (f : β → β)
    (l : List (String × β)) :
    lookupKey k (updateAssoc k f l) = (lookupKey k l).map f := by
  induction l with
  | nil => simp [lookupKey, updateAssoc]
  | cons e rest ih =>
    by_cases h : e.1 = k
    · simp [lookupKey, updateAssoc, h]
    · simp [lookupKey, updateAssoc, h, ih]

theorem lookupKey_updateAssoc_ne {β : Type} (k y : String) (f : β → β)
    (l : List (String × β)) (h : y ≠ k) :
    lookupKey y (updateAssoc k f l) = lookupKey y l := by
  induction l with
  | nil => simp [updateAssoc]
  | cons e rest ih =>
    by_cases h1 : e.1 = k
    · simp [lookupKey, updateAssoc, h1, Ne.symm h]
    · simp [lookupKey, updateAssoc, h1, ih]

theorem lookupKey_map_value {β : Type} (k : String) (g : β → β)
    (l : List (String × β)) :
    lookupKey k (l.map (fun e => (e.1, g e.2))) = (lookupKey k l).map g := by
  induction l with
  | nil => simp [lookupKey]
  | cons e rest ih =>
    by_cases h : e.1 = k
    · simp [lookupKey, h]
    · simp [lookupKey, h, ih]

/-! ## Lemmas: one step of `ProcessDelta` -/

theorem updateWithDelta_buffer (d : Response.ToolCall) (c : StreamingToolCall) :
    (updateWithDelta d c).argumentsBuffer = c.argumentsBuffer ++ d.function.arguments := by
  by_cases h : d.function.arguments = ""
  · simp [updateWithDelta, h, String.append_empty]
  · simp [updateWithDelta, h]

theorem updateWithDelta_complete (d : Response.ToolCall) (c : StreamingToolCall) :
    (updateWithDelta d c).isComplete
      = (c.isComplete || IsValidJSON (c.argumentsBuffer ++ d.function.arguments)) := by
  have hb : (if d.function.arguments ≠ "" then c.argumentsBuffer ++ d.function.arguments
             else c.argumentsBuffer) = c.argumentsBuffer ++ d.function.arguments := by
    by_cases h : d.function.arguments = "" <;> simp [h, String.append_empty]
  simp only [updateWithDelta, hb]
  cases hv : IsValidJSON (c.argumentsBuffer ++ d.function.arguments) <;> simp [hv]

theorem applyToTarget_lookup_self (acc : StreamingToolCallAccumulator) (x : String)
    (d : Response.ToolCall) :
    lookupKey x (acc.applyToTarget x d).toolCalls
      = some (updateWithDelta d ((lookupKey x acc.toolCalls).getD (freshCall x d))) := by
  unfold StreamingToolCallAccumulator.applyToTarget
  cases hl : lookupKey x acc.toolCalls with
  | none =>
    simp only [hl]
    rw [lookupKey_updateAssoc_self, lookupKey_append, hl]
    simp [lookupKey]
  | some c =>
    simp only [hl]
    rw [lookupKey_updateAssoc_self, hl]
    simp

theorem applyToTarget_lookup_ne (acc : StreamingToolCallAccumulator) (x y : String)
    (d : Response.ToolCall) (h : y ≠ x) :
    lookupKey y (acc.applyToTarget x d).toolCalls = lookupKey y acc.toolCalls := by
  unfold StreamingToolCallAccumulator.applyToTarget
  cases hl : lookupKey x acc.toolCalls with
  | none =>
    simp only [hl]
    rw [lookupKey_updateAssoc_ne _ _ _ _ h, lookupKey_append]
    cases hy : lookupKey y acc.toolCalls with
    | none => simp [lookupKey, Ne.symm h]
    | some c => simp
  | some c =>
    simp only [hl]
    rw [lookupKey_updateAssoc_ne _ _ _ _ h]

theorem processDeltaStep_skip (acc : StreamingToolCallAccumulator) (d : Response.ToolCall)
    (h : resolvedTarget acc d = none) :
    acc.processDeltaStep d = acc := by
  unfold resolvedTarget at h
  unfold StreamingToolCallAccumulator.processDeltaStep
  by_cases h1 : d.id = ""
  · by_cases h2 : acc.lastToolCallID = ""
    · simp [h1, h2]
    · simp [h1, h2] at h
  · simp [h1] at h

theorem processDeltaStep_lastID (acc : StreamingToolCallAccumulator) (d : Response.ToolCall) :
    (acc.processDeltaStep d).lastToolCallID
      = if d.id = "" then acc.lastToolCallID else d.id := by
  unfold StreamingToolCallAccumulator.processDeltaStep
  by_cases h1 : d.id = ""
  · by_cases h2 : acc.lastToolCallID = ""
    · simp [h1, h2]
    · simp [h1, h2, StreamingToolCallAccumulator.applyToTarget]
  · simp [h1, StreamingToolCallAccumulator.applyToTarget]

theorem processDeltaStep_lookup_target (acc : StreamingToolCallAccumulator)
    (d : Response.ToolCall) (x : String) (h : resolvedTarget acc d = some x) :
    lookupKey x (acc.processDeltaStep d).toolCalls
      = some (updateWithDelta d ((lookupKey x acc.toolCalls).getD (freshCall x d))) := by
  unfold resolvedTarget at h
  unfold StreamingToolCallAccumulator.processDeltaStep
  by_cases h1 : d.id = ""
  · by_cases h2 : acc.lastToolCallID = ""
    · simp [h1, h2] at h
    · rw [if_pos h1, if_neg h2]
      rw [if_pos h1, if_neg h2] at h
      injection h with h
      subst h
      exact applyToTarget_lookup_self acc _ d
  · rw [if_neg h1]
    rw [if_neg h1] at h
    injection h with h
    subst h
    exact applyToTarget_lookup_self { acc with lastToolCallID := d.id } _ d

theorem processDeltaStep_lookup_other (acc : StreamingToolCallAccumulator)
    (d : Response.ToolCall) (x y : String) (h : resolvedTarget acc d = some x)
    (hy : y ≠ x) :
    lookupKey y (acc.processDeltaStep d).toolCalls = lookupKey y acc.toolCalls := by
  unfold resolvedTarget at h
  unfold StreamingToolCallAccumulator.processDeltaStep
  by_cases h1 : d.id = ""
  · by_cases h2 : acc.lastToolCallID = ""
    · simp [h1, h2] at h
    · rw [if_pos h1, if_neg h2]
      rw [if_pos h1, if_neg h2] at h
      injection h with h
      subst h
      exact applyToTarget_lookup_ne acc _ y d hy
  · rw [if_neg h1]
    rw [if_neg h1] at h
    injection h with h
    subst h
    exact applyToTarget_lookup_ne { acc with lastToolCallID := d.id } _ y d hy

theorem bufOf_processDeltaStep (acc : StreamingToolCallAccumulator) (d : Response.ToolCall)
    (x : String) (h : resolvedTarget acc d = some x) :
    bufOf (acc.processDeltaStep d) x = bufOf acc x ++ d.function.arguments := by
  unfold bufOf
  rw [processDeltaStep_lookup_target acc d x h]
  cases hl : lookupKey x acc.toolCalls with
  | none => simp [updateWithDelta_buffer, freshCall]
  | some c => simp [updateWithDelta_buffer]

theorem completeOf_processDeltaStep (acc : StreamingToolCallAccumulator)
    (d : Response.ToolCall) (x : String) (h : resolvedTarget acc d = some x) :
    completeOf (acc.processDeltaStep d) x
      = (completeOf acc x || IsValidJSON (bufOf acc x ++ d.function.arguments)) := by
  unfold completeOf bufOf
  rw [processDeltaStep_lookup_target acc d x h]
  cases hl : lookupKey x acc.toolCalls with
  | none => simp [updateWithDelta_complete, freshCall]
  | some c => simp [updateWithDelta_complete]

theorem bufOf_processDeltaStep_other (acc : StreamingToolCallAccumulator)
    (d : Response.ToolCall) (x y : String) (h : resolvedTarget acc d = some x)
    (hy : y ≠ x) :
    bufOf (acc.processDeltaStep d) y = bufOf acc y := by
  unfold bufOf
  rw [processDeltaStep_lookup_other acc d x y h hy]

theorem completeOf_processDeltaStep_mono (acc : StreamingToolCallAccumulator)
    (d : Response.ToolCall) (x : String) (h : completeOf acc x = true) :
    completeOf (acc.processDeltaStep d) x = true := by
  cases hr : resolvedTarget acc d with
  | none => rw [processDeltaStep_skip acc d hr]; exact h
  | some y =>
    by_cases hxy : x = y
    · subst hxy
      rw [completeOf_processDeltaStep acc d x hr, h, Bool.true_or]
    · unfold completeOf
      rw [processDeltaStep_lookup_other acc d y x hr hxy]
      exact h

/-! ## Lemmas: `ProcessDelta` over fragment lists -/

theorem ProcessDelta_nil (acc : StreamingToolCallAccumulator) :
    acc.ProcessDelta [] = acc := rfl

theorem ProcessDelta_cons (acc : StreamingToolCallAccumulator) (d : Response.ToolCall)
    (ds : List Response.ToolCall) :
    acc.ProcessDelta (d :: ds) = (acc.processDeltaStep d).ProcessDelta ds := rfl

theorem resolvedTarget_of_id (acc : StreamingToolCallAccumulator) (d : Response.ToolCall)
    (x : String) (hid : d.id = x) (hx : x ≠ "") :
    resolvedTarget acc d = some x := by
  unfold resolvedTarget
  rw [hid, if_neg hx]

theorem completeOf_ProcessDelta_mono (ds : List Response.ToolCall) :
    ∀ acc : StreamingToolCallAccumulator, ∀ x : String, completeOf acc x = true →
      completeOf (acc.ProcessDelta ds) x = true := by
  induction ds with
  | nil => intro acc x h; exact h
  | cons d ds ih =>
    intro acc x h
    rw [ProcessDelta_cons]
    exact ih _ x (completeOf_processDeltaStep_mono acc d x h)

theorem bufOf_ProcessDelta_same_id (x : String) (hx : x ≠ "") (ds : List Response.ToolCall) :
    ∀ acc : StreamingToolCallAccumulator, (∀ d ∈ ds, d.id = x) →
      bufOf (acc.ProcessDelta ds) x = bufOf acc x ++ concatArgs ds := by
  induction ds with
  | nil => intro acc _; simp [ProcessDelta_nil, concatArgs, String.append_empty]
  | cons d ds ih =>
    intro acc hall
    have hd : d.id = x := hall d (List.mem_cons_self d ds)
    have htail : ∀ d' ∈ ds, d'.id = x := fun d' hm => hall d' (List.mem_cons_of_mem d hm)
    rw [ProcessDelta_cons, ih _ htail,
        bufOf_processDeltaStep acc d x (resolvedTarget_of_id acc d x hd hx)]
    simp [concatArgs, String.append_assoc]

theorem lookup_isSome_ProcessDelta_same_id (x : String) (hx : x ≠ "")
    (ds : List Response.ToolCall) :
    ∀ acc : StreamingToolCallAccumulator, (∀ d ∈ ds, d.id = x) → ds ≠ [] →
      (lookupKey x (acc.ProcessDelta ds).toolCalls).isSome = true := by
  induction ds with
  | nil => intro acc _ hne; exact absurd rfl hne
  | cons d ds ih =>
    intro acc hall _
    have hd : d.id = x := hall d (List.mem_cons_self d ds)
    have htail : ∀ d' ∈ ds, d'.id = x := fun d' hm => hall d' (List.mem_cons_of_mem d hm)
    rw [ProcessDelta_cons]
    cases hds : ds with
    | nil =>
      rw [ProcessDelta_nil,
          processDeltaStep_lookup_target acc d x (resolvedTarget_of_id acc d x hd hx)]
      rfl
    | cons d2 ds2 =>
      rw [← hds]
      exact ih _ htail (by rw [hds]; exact List.cons_ne_nil d2 ds2)

/-! ## Claim theorems -/

/-- C1: for every sequence of delta fragments all carrying the same non-empty
call id, processed in order by `ProcessDelta`, the call's final arguments
buffer equals the ordered concatenation of each fragment's argument text,
regardless of how the text was split across fragments (empty argument
fragments contribute nothing), and the call record exists once at least one
fragment has been processed. -/
theorem processDelta_orderPreserving_concat (acc : StreamingToolCallAccumulator)
    (x : String) (ds : List Response.ToolCall) (hx : x ≠ "")
    (hall : ∀ d ∈ ds, d.id = x) :
    bufOf (acc.ProcessDelta ds) x = bufOf acc x ++ concatArgs ds
      ∧ (ds ≠ [] → (lookupKey x (acc.ProcessDelta ds).toolCalls).isSome = true) :=
  ⟨bufOf_ProcessDelta_same_id x hx ds acc hall,
   fun hne => lookup_isSome_ProcessDelta_same_id x hx ds acc hall hne⟩

/-- Witness for C1: the three-way split of `\x7b"location":"NYC"\x7d` fed to
a fresh accumulator reassembles exactly, and the record exists. -/
theorem processDelta_orderPreserving_concat_witness :
    bufOf (NewStreamingToolCallAccumulator.ProcessDelta dsW) "call_1"
        = bufOf NewStreamingToolCallAccumulator "call_1" ++ concatArgs dsW
      ∧ (dsW ≠ [] →
          (lookupKey "call_1" (NewStreamingToolCallAccumulator.ProcessDelta dsW).toolCalls).isSome
            = true) :=
  processDelta_orderPreserving_concat NewStreamingToolCallAccumulator "call_1" dsW
    (by decide) (by decide)

/-- C2: processing one fragment for call id `x` re-evaluates the completion
flag against the whole accumulated buffer — afterwards the flag holds exactly
when it already held or the new buffer is valid JSON — and the flag is never
un-set by any later sequence of fragments. -/
theorem processDelta_validityGatedCompletion (acc : StreamingToolCallAccumulator)
    (d : Response.ToolCall) (x : String) (hid : d.id = x) (hx : x ≠ "") :
    completeOf (acc.ProcessDelta [d]) x
        = (completeOf acc x || IsValidJSON (bufOf acc x ++ d.function.arguments))
      ∧ (∀ ds : List Response.ToolCall, completeOf acc x = true →
          completeOf (acc.ProcessDelta ds) x = true) := by
  constructor
  · rw [ProcessDelta_cons, ProcessDelta_nil]
    exact completeOf_processDeltaStep acc d x (resolvedTarget_of_id acc d x hid hx)
  · intro ds h
    exact completeOf_ProcessDelta_mono ds acc x h

/-- Witness for C2: a call whose buffer is `\x7b"a": 1` reports pending, and
the fragment appending `\x7d` flips it to completed in that `ProcessDelta`
invocation. -/
theorem processDelta_validityGatedCompletion_witness :
    completeOf acc1W "call_1" = false
      ∧ completeOf (acc1W.ProcessDelta [d2W]) "call_1"
          = (completeOf acc1W "call_1"
              || IsValidJSON (bufOf acc1W "call_1" ++ d2W.function.arguments))
      ∧ completeOf (acc1W.ProcessDelta [d2W]) "call_1" = true :=
  ⟨by decide,
   (processDelta_validityGatedCompletion acc1W d2W "call_1" (by decide) (by decide)).1,
   by decide⟩

/-- C3: a fragment with an empty id immediately following a fragment with
non-empty id `x` (no intervening fragment) is merged into call `x`: the two
argument texts are appended to `x`'s buffer in order, and no other call's
record is touched. -/
theorem processDelta_emptyId_mergesIntoLast (acc : StreamingToolCallAccumulator)
    (d1 d2 : Response.ToolCall) (x : String) (h1 : d1.id = x) (hx : x ≠ "")
    (h2 : d2.id = "") :
    bufOf (acc.ProcessDelta [d1, d2]) x
        = bufOf acc x ++ d1.function.arguments ++ d2.function.arguments
      ∧ ∀ y, y ≠ x → lookupKey y (acc.ProcessDelta [d1, d2]).toolCalls
          = lookupKey y acc.toolCalls := by
  have hr1 : resolvedTarget acc d1 = some x := resolvedTarget_of_id acc d1 x h1 hx
  have hne1 : ¬d1.id = "" := by rw [h1]; exact hx
  have hlast : (acc.processDeltaStep d1).lastToolCallID = x := by
    rw [processDeltaStep_lastID, if_neg hne1, h1]
  have hr2 : resolvedTarget (acc.processDeltaStep d1) d2 = some x := by
    unfold resolvedTarget
    rw [if_pos h2, hlast, if_neg hx]
  constructor
  · rw [ProcessDelta_cons, ProcessDelta_cons, ProcessDelta_nil,
        bufOf_processDeltaStep _ d2 x hr2, bufOf_processDeltaStep acc d1 x hr1]
  · intro y hy
    rw [ProcessDelta_cons, ProcessDelta_cons, ProcessDelta_nil,
        processDeltaStep_lookup_other _ d2 x y hr2 hy,
        processDeltaStep_lookup_other acc d1 x y hr1 hy]

/-- Witness for C3: an id-carrying fragment followed by an id-less fragment
lands both argument texts in the id's buffer, other ids untouched. -/
theorem processDelta_emptyId_mergesIntoLast_witness :
    bufOf (NewStreamingToolCallAccumulator.ProcessDelta [d1W, dEmptyW]) "call_1"
        = bufOf NewStreamingToolCallAccumulator "call_1"
            ++ d1W.function.arguments ++ dEmptyW.function.arguments
      ∧ lookupKey "other" (NewStreamingToolCallAccumulator.ProcessDelta [d1W, dEmptyW]).toolCalls
          = lookupKey "other" NewStreamingToolCallAccumulator.toolCalls :=
  ⟨(processDelta_emptyId_mergesIntoLast NewStreamingToolCallAccumulator d1W dEmptyW "call_1"
      (by decide) (by decide) (by decide)).1,
   (processDelta_emptyId_mergesIntoLast NewStreamingToolCallAccumulator d1W dEmptyW "call_1"
      (by decide) (by decide) (by decide)).2 "other" (by decide)⟩

/-- C10: a fragment with an empty id arriving before any non-empty id has
been seen by this accumulator instance is silently discarded — the
accumulator state is unchanged (this also covers any run of such fragments
from a fresh accumulator). -/
theorem processDelta_emptyId_noPriorId_skipped (acc : StreamingToolCallAccumulator)
    (ds : List Response.ToolCall) (h0 : acc.lastToolCallID = "")
    (hall : ∀ d ∈ ds, d.id = "") :
    acc.ProcessDelta ds = acc := by
  induction ds with
  | nil => rfl
  | cons d ds ih =>
    have hd : d.id = "" := hall d (List.mem_cons_self d ds)
    have hskip : acc.processDeltaStep d = acc := by
      apply processDeltaStep_skip
      unfold resolvedTarget
      rw [if_pos hd, if_pos h0]
    rw [ProcessDelta_cons, hskip]
    exact ih (fun d' hm => hall d' (List.mem_cons_of_mem d hm))

/-- Witness for C10: an id-less fragment fed to a fresh accumulator leaves
it exactly as constructed. -/
theorem processDelta_emptyId_noPriorId_skipped_witness :
    NewStreamingToolCallAccumulator.ProcessDelta [dEmptyW] = NewStreamingToolCallAccumulator :=
  processDelta_emptyId_noPriorId_skipped NewStreamingToolCallAccumulator [dEmptyW]
    (by decide) (by decide)

theorem FinalizeStream_toolCalls (acc : StreamingToolCallAccumulator) :
    (acc.FinalizeStream).2.toolCalls
      = acc.toolCalls.map (fun e => (e.1, finalizePromote e.2)) := rfl

theorem FinalizeStream_completed (acc : StreamingToolCallAccumulator) :
    (acc.FinalizeStream).1
      = ((acc.FinalizeStream).2.toolCalls).filterMap (fun e =>
          if e.2.isComplete then some (toTypesToolCall e.2) else none) := rfl

/-- C4: `FinalizeStream` re-validates every pending record — a pending record
whose buffer is valid JSON is promoted to complete, a pending record whose
buffer is not valid JSON stays pending, an already complete record is
untouched — and the returned list holds exactly the (converted) completed
records of the resulting state. -/
theorem finalizeStream_promotesExactlyValid (acc : StreamingToolCallAccumulator) :
    (∀ x c, lookupKey x acc.toolCalls = some c → c.isComplete = false →
        IsValidJSON c.argumentsBuffer = true →
        lookupKey x (acc.FinalizeStream).2.toolCalls = some { c with isComplete := true })
      ∧ (∀ x c, lookupKey x acc.toolCalls = some c → c.isComplete = false →
          IsValidJSON c.argumentsBuffer = false →
          lookupKey x (acc.FinalizeStream).2.toolCalls = some c)
      ∧ (∀ x c, lookupKey x acc.toolCalls = some c → c.isComplete = true →
          lookupKey x (acc.FinalizeStream).2.toolCalls = some c)
      ∧ (∀ tc : Types.ToolCall, tc ∈ (acc.FinalizeStream).1 ↔
          ∃ e ∈ (acc.FinalizeStream).2.toolCalls,
            e.2.isComplete = true ∧ tc = toTypesToolCall e.2) := by
  refine ⟨?_, ?_, ?_, ?_⟩
  · intro x c hl hc hv
    rw [FinalizeStream_toolCalls, lookupKey_map_value, hl]
    simp [finalizePromote, hc, hv]
  · intro x c hl hc hv
    rw [FinalizeStream_toolCalls, lookupKey_map_value, hl]
    simp [finalizePromote, hc, hv]
  · intro x c hl hc
    rw [FinalizeStream_toolCalls, lookupKey_map_value, hl]
    simp [finalizePromote, hc]
  · intro tc
    rw [FinalizeStream_completed, List.mem_filterMap]
    constructor
    · rintro ⟨e, he, hfe⟩
      by_cases hc : e.2.isComplete = true
      · rw [if_pos hc] at hfe
        injection hfe with hfe
        exact ⟨e, he, hc, hfe.symm⟩
      · rw [if_neg hc] at hfe
        exact absurd hfe (by simp)
    · rintro ⟨e, he, hc, htc⟩
      exact ⟨e, he, by rw [if_pos hc, htc]⟩

/-- Witness for C4: the pending call with valid buffer `1` is promoted, the
pending call with buffer `\x7b` stays pending. -/
theorem finalizeStream_promotesExactlyValid_witness :
    lookupKey "a" (accFinW.FinalizeStream).2.toolCalls
        = some { id := "a", type := "function", functionName := "fa",
                 argumentsBuffer := "1", isComplete := true }
      ∧ lookupKey "b" (accFinW.FinalizeStream).2.toolCalls
          = some { id := "b", type := "function", functionName := "fb",
                   argumentsBuffer := "\x7b", isComplete := false } :=
  ⟨(finalizeStream_promotesExactlyValid accFinW).1 "a"
      { id := "a", type := "function", functionName := "fa",
        argumentsBuffer := "1", isComplete := false } (by decide) (by decide) (by decide),
   (finalizeStream_promotesExactlyValid accFinW).2.1 "b"
      { id := "b", type := "function", functionName := "fb",
        argumentsBuffer := "\x7b", isComplete := false } (by decide) (by decide) (by decide)⟩

/-- C5: the safe argument parser is a tri-state: a structurally invalid or
incomplete payload — in particular the payloads `""` and `\x7b` — yields
(zero value, not complete, no error); a valid payload that deserializes
yields (value, complete, no error); a valid payload that fails typed
deserialization yields (not complete, an error); and an error is only ever
reported for a payload that is valid JSON (string, bytes and re-serialized
cases alike) or for a failed intermediate re-serialization — never for an
incomplete payload. -/
theorem parseToolCallArgumentsSafe_triState {T : Type}
    (unmarshalT : String → T × Option String) (zero : T) :
    (∀ call : Types.ToolCall, call.function.parameters = ParametersValue.str "" →
        ParseToolCallArgumentsSafe unmarshalT zero call = (zero, false, none))
      ∧ (∀ call : Types.ToolCall, call.function.parameters = ParametersValue.str "\x7b" →
          ParseToolCallArgumentsSafe unmarshalT zero call = (zero, false, none))
      ∧ (∀ call s, call.function.parameters = ParametersValue.str s →
          IsValidJSON s = false →
          ParseToolCallArgumentsSafe unmarshalT zero call = (zero, false, none))
      ∧ (∀ call s v, call.function.parameters = ParametersValue.str s →
          IsValidJSON s = true → unmarshalT s = (v, none) →
          ParseToolCallArgumentsSafe unmarshalT zero call = (v, true, none))
      ∧ (∀ call s r e, call.function.parameters = ParametersValue.str s →
          IsValidJSON s = true → unmarshalT s = (r, some e) →
          ParseToolCallArgumentsSafe unmarshalT zero call
            = (r, false, some ("failed to parse tool call arguments from string: " ++ e)))
      ∧ (∀ call s, call.function.parameters = ParametersValue.str s →
          (ParseToolCallArgumentsSafe unmarshalT zero call).2.2 ≠ none →
          IsValidJSON s = true)
      ∧ (∀ call b, call.function.parameters = ParametersValue.bytes b →
          (ParseToolCallArgumentsSafe unmarshalT zero call).2.2 ≠ none →
          IsValidJSON b = true)
      ∧ (∀ call e, call.function.parameters
            = ParametersValue.other (MarshalResult.error e) →
          ParseToolCallArgumentsSafe unmarshalT zero call
            = (zero, false, some ("failed to marshal tool call parameters: " ++ e)))
      ∧ (∀ call data, call.function.parameters
            = ParametersValue.other (MarshalResult.ok data) →
          (ParseToolCallArgumentsSafe unmarshalT zero call).2.2 ≠ none →
          IsValidJSON data = true) := by
  have hemp : IsValidJSON "" = false := by decide
  have hbrace : IsValidJSON "\x7b" = false := by decide
  refine ⟨?_, ?_, ?_, ?_, ?_, ?_, ?_, ?_, ?_⟩
  · intro call hp
    simp [ParseToolCallArgumentsSafe, hp, hemp]
  · intro call hp
    simp [ParseToolCallArgumentsSafe, hp, hbrace]
  · intro call s hp hv
    simp [ParseToolCallArgumentsSafe, hp, hv]
  · intro call s v hp hv hu
    simp [ParseToolCallArgumentsSafe, hp, hv, hu]
  · intro call s r e hp hv hu
    simp [ParseToolCallArgumentsSafe, hp, hv, hu]
  · intro call s hp hne
    cases hv : IsValidJSON s with
    | true => rfl
    | false => exact absurd (by simp [ParseToolCallArgumentsSafe, hp, hv]) hne
  · intro call b hp hne
    cases hv : IsValidJSON b with
    | true => rfl
    | false => exact absurd (by simp [ParseToolCallArgumentsSafe, hp, hv]) hne
  · intro call e hp
    simp [ParseToolCallArgumentsSafe, hp]
  · intro call data hp hne
    cases hv : IsValidJSON data with
    | true => rfl
    | false => exact absurd (by simp [ParseToolCallArgumentsSafe, hp, hv]) hne

/-- Witness for C5: on the payloads `""` and `\x7b` the parser reports
(0, pending, no error); the payload `1` deserializes to `(1, complete, no
error)`; the valid-but-mismatched payload `2` yields a typed error. -/
theorem parseToolCallArgumentsSafe_triState_witness :
    ParseToolCallArgumentsSafe natUnmarshalW 0 (callStrW "") = (0, false, none)
      ∧ ParseToolCallArgumentsSafe natUnmarshalW 0 (callStrW "\x7b") = (0, false, none)
      ∧ ParseToolCallArgumentsSafe natUnmarshalW 0 (callStrW "1") = (1, true, none)
      ∧ ParseToolCallArgumentsSafe natUnmarshalW 0 (callStrW "2")
          = (0, false, some ("failed to parse tool call arguments from string: "
              ++ "type mismatch")) :=
  ⟨(parseToolCallArgumentsSafe_triState natUnmarshalW 0).1 (callStrW "") rfl,
   (parseToolCallArgumentsSafe_triState natUnmarshalW 0).2.1 (callStrW "\x7b") rfl,
   (parseToolCallArgumentsSafe_triState natUnmarshalW 0).2.2.2.1 (callStrW "1") "1" 1
      rfl (by decide) (by decide),
   (parseToolCallArgumentsSafe_triState natUnmarshalW 0).2.2.2.2.1 (callStrW "2") "2" 0
      "type mismatch" rfl (by decide) (by decide)⟩

/-- C7: `Handle` never aborts — a lookup miss yields a result carrying the
call id, empty content and an error string naming the unknown function; a hit
whose handler fails captures the handler's error text in the result's error
field; a hit whose handler succeeds yields the content with an empty error.
Since `Handle` is a total function of the single call, handling one call
cannot abort the handling of sibling calls. -/
theorem functionRegistry_handle_isolation (fr : FunctionRegistry)
    (toolCall : Types.ToolCall) :
    (lookupKey toolCall.function.name fr.handlers = none →
        fr.Handle toolCall
          = { toolCallID := toolCall.id, content := "",
              error := "function " ++ toolCall.function.name ++ " not found" })
      ∧ (∀ handler content e,
          lookupKey toolCall.function.name fr.handlers = some handler →
          handler toolCall = (content, some e) →
          fr.Handle toolCall
            = { toolCallID := toolCall.id, content := content, error := e })
      ∧ (∀ handler content,
          lookupKey toolCall.function.name fr.handlers = some handler →
          handler toolCall = (content, none) →
          fr.Handle toolCall
            = { toolCallID := toolCall.id, content := content, error := "" }) := by
  refine ⟨?_, ?_, ?_⟩
  · intro h
    simp [FunctionRegistry.Handle, h]
  · intro handler content e h hh
    simp [FunctionRegistry.Handle, h, hh]
  · intro handler content h hh
    simp [FunctionRegistry.Handle, h, hh]

/-- Witness for C7: in one registry, the unregistered name `b` yields an
error result naming it, the succeeding handler under `a` yields content with
no error, and the failing handler under `c` yields its error text — each
result independent of the others. -/
theorem functionRegistry_handle_isolation_witness :
    frW.Handle (callNamedW "b")
        = { toolCallID := "id_b", content := "", error := "function b not found" }
      ∧ frW.Handle (callNamedW "a")
          = { toolCallID := "id_a", content := "sunny", error := "" }
      ∧ frW.Handle (callNamedW "c")
          = { toolCallID := "id_c", content := "", error := "boom" } :=
  ⟨(functionRegistry_handle_isolation frW (callNamedW "b")).1 rfl,
   (functionRegistry_handle_isolation frW (callNamedW "a")).2.2 okHandlerW "sunny" rfl rfl,
   (functionRegistry_handle_isolation frW (callNamedW "c")).2.1 failHandlerW "" "boom" rfl rfl⟩

theorem next_false_finished {α : Type} (cfg : streamConfig α)
    (h : ( streamReader.Next cfg).1 = false) :
    ( streamReader.Next cfg).2.reader.finished = true := by
  unfold streamReader.Next at h ⊢
  by_cases hf : cfg.reader.finished = true
  · simp [hf]
  · cases hch : cfg.channel with
    | nil => simp [hf, hch]
    | cons resp rest =>
      cases herr : resp.error with
      | none => simp [hf, hch, herr] at h
      | some e => cases e <;> simp [hf, hch, herr]

theorem next_of_finished {α : Type} (cfg : streamConfig α)
    (h : cfg.reader.finished = true) :
    streamReader.Next cfg = (false, cfg) := by
  unfold streamReader.Next
  simp [h]

theorem afterNexts_finished {α : Type} (cfg : streamConfig α)
    (h : cfg.reader.finished = true) :
    ∀ n, (cfg.afterNexts n).reader.finished = true := by
  intro n
  induction n with
  | zero => exact h
  | succ n ih =>
    show ( streamReader.Next (cfg.afterNexts n)).2.reader.finished = true
    rw [next_of_finished _ ih]
    exact ih

/-- C8: the advance operation is monotonically terminal — once `Next` has
returned false, every later call to `Next` (with whatever the channel still
holds) returns false: the iterator is single-pass and cannot be restarted. -/
theorem streamReader_next_terminal {α : Type} (cfg : streamConfig α)
    (h : ( streamReader.Next cfg).1 = false) (n : Nat) :
    ( streamReader.Next ((streamReader.Next cfg).2.afterNexts n)).1 = false := by
  have hf := next_false_finished cfg h
  have hfn := afterNexts_finished _ hf n
  rw [next_of_finished _ hfn]

/-- Witness for C8: a reader whose first advance hits a read error returns
false, and still returns false two advances later. -/
theorem streamReader_next_terminal_witness :
    ( streamReader.Next cfgW).1 = false
      ∧ ( streamReader.Next ((streamReader.Next cfgW).2.afterNexts 2)).1 = false :=
  ⟨by decide, streamReader_next_terminal cfgW (by decide) 2⟩

/-- C9, counterexample: the line `0123456789` does not carry the `data: `
prefix, yet the decoder does not leave it unmodified — its first 6 bytes are
dropped. -/
theorem trimDataPrefix_nonPrefixed_not_unmodified :
    "0123456789".toList.take 6 ≠ "data: ".toList
      ∧ trimDataPrefix "0123456789".toList ≠ "0123456789".toList := by
  decide

/-- C9, amended: the decoder unconditionally removes the first 6 bytes of
any line longer than 6 bytes — which strips the `data: ` prefix exactly when
it is present with a non-empty payload — and leaves lines of at most 6 bytes
unmodified; a longer line that does not carry the prefix also loses its first
6 bytes. -/
theorem trimDataPrefix_amended :
    (∀ payload : List Char, payload ≠ [] →
        trimDataPrefix ("data: ".toList ++ payload) = payload)
      ∧ (∀ l : List Char, l.length ≤ 6 → trimDataPrefix l = l)
      ∧ (∀ l : List Char, 6 < l.length → trimDataPrefix l = l.drop 6) := by
  refine ⟨?_, ?_, ?_⟩
  · intro payload hp
    cases payload with
    | nil => exact absurd rfl hp
    | cons a as =>
      have hlen : 6 < ("data: ".toList ++ (a :: as)).length := by
        have h6 : ("data: ".toList).length = 6 := by decide
        rw [List.length_append, h6, List.length_cons]
        omega
      show trimDataPrefix ("data: ".toList ++ (a :: as)) = a :: as
      unfold trimDataPrefix
      rw [if_pos hlen]
      rfl
  · intro l hl
    unfold trimDataPrefix
    rw [if_neg (by omega)]
  · intro l hl
    unfold trimDataPrefix
    rw [if_pos hl]

/-- Witness for C9 (amended): a prefixed line is stripped to its payload, a
short line passes through, a long unprefixed line loses its first 6 bytes. -/
theorem trimDataPrefix_amended_witness :
    trimDataPrefix ("data: ".toList ++ "x".toList) = "x".toList
      ∧ trimDataPrefix "ab".toList = "ab".toList
      ∧ trimDataPrefix "0123456789".toList = "0123456789".toList.drop 6 :=
  ⟨trimDataPrefix_amended.1 "x".toList (by decide),
   trimDataPrefix_amended.2.1 "ab".toList (by decide),
   trimDataPrefix_amended.2.2 "0123456789".toList (by decide)⟩

/-- Sequential content behind the concurrency claim: the mutex in the Go
accumulator serializes `ProcessDelta` invocations, so a concurrent run of
several producers with distinct non-empty call ids executes as some
interleaving of their fragments.  For every such interleaving, each id's
final buffer is the ordered concatenation of exactly its own fragments'
argument texts — no fragment is lost and no call is corrupted by a sibling's
updates.  (The data-race safety of the lock discipline itself is outside
this sequential model.) -/
theorem processDelta_interleaving_buffers (x : String) (hx : x ≠ "")
    (ds : List Response.ToolCall) :
    ∀ acc : StreamingToolCallAccumulator, (∀ d ∈ ds, d.id ≠ "") →
      bufOf (acc.ProcessDelta ds) x
        = bufOf acc x ++ concatArgs (ds.filter (fun d => d.id == x)) := by
  induction ds with
  | nil =>
    intro acc _
    simp [ProcessDelta_nil, concatArgs, String.append_empty]
  | cons d ds ih =>
    intro acc hall
    have hd : d.id ≠ "" := hall d (List.mem_cons_self d ds)
    have htail : ∀ d' ∈ ds, d'.id ≠ "" := fun d' hm => hall d' (List.mem_cons_of_mem d hm)
    rw [ProcessDelta_cons]
    by_cases hdx : d.id = x
    · have hr : resolvedTarget acc d = some x := resolvedTarget_of_id acc d x hdx hx
      have hfil : (d :: ds).filter (fun d => d.id == x)
          = d :: ds.filter (fun d => d.id == x) := by
        rw [List.filter_cons, if_pos (by simp [hdx])]
      rw [ih _ htail, bufOf_processDeltaStep acc d x hr, hfil]
      simp [concatArgs, String.append_assoc]
    · have hr : resolvedTarget acc d = some d.id := by
        unfold resolvedTarget
        rw [if_neg hd]
      have hfil : (d :: ds).filter (fun d => d.id == x)
          = ds.filter (fun d => d.id == x) := by
        rw [List.filter_cons, if_neg (by simp [hdx])]
      rw [ih _ htail, bufOf_processDeltaStep_other acc d d.id x hr (Ne.symm hdx), hfil]
